import Mathlib

/-!
Verification of the fzk process monitor against its specification.

The development shallowly embeds the core of the repository:
* `src/src/interface.rs` — the `Monitor` snapshot store, the platform
  parsers of the external process-listing output, fuzzy ranking and the
  kill operations;
* `src/src/app.rs` — the scroll-offset / pointer selection logic of
  `App::run`.

Strings are modelled as `List Char`, `u64` as `Nat` with the explicit
sentinel `U64MAX`, `f32` configuration values as `ℚ`, and the effect of
spawning an external command as an explicit `Option SpawnResult`
argument (`none` models a spawn failure, i.e. `Command::output()`
returning `Err`).
-/

namespace Fzk

/-- Rust `char::is_ascii_whitespace`: space, tab, newline, carriage
return and form feed. -/
def isAsciiWs (c : Char) : Bool :=
  c = ' ' || c = '\t' || c = '\n' || c = '\r' || c = '\x0c'

/-- Accumulator-based worker for `splitWs`. -/
def splitWsAux : List Char → List Char → List (List Char)
  | [], acc => if acc.isEmpty then [] else [acc.reverse]
  | c :: rest, acc =>
    if isAsciiWs c then
      if acc.isEmpty then splitWsAux rest [] else acc.reverse :: splitWsAux rest []
    else
      splitWsAux rest (c :: acc)

/-- Rust `str::split_ascii_whitespace`: maximal non-empty runs of
non-whitespace characters. -/
def splitWs (s : List Char) : List (List Char) :=
  splitWsAux s []

/-- Rust `str::lines`: split on newline, without a trailing empty line
when the text ends in a newline.  (Carriage-return stripping is not
modelled; no input used in this development contains one.) -/
def rustLines (s : List Char) : List (List Char) :=
  let parts := s.splitOn '\n'
  if parts.getLast? = some [] then parts.dropLast else parts

/-- The value `u64::MAX`, used by the source as the sentinel PID of an
uninitialized `Process`. -/
def U64MAX : Nat := 18446744073709551615

/-- Numeric value of a list of decimal digits. -/
def digitsToNat (s : List Char) : Nat :=
  s.foldl (fun acc c => acc * 10 + (c.toNat - 48)) 0

/-- Rust `str::parse::<u64>()`: an optional leading `+`, then at least
one ASCII digit, rejecting values above `u64::MAX`. -/
def parse_u64 (s : List Char) : Option Nat :=
  let t := match s with
    | '+' :: r => r
    | _ => s
  if t.isEmpty then none
  else if t.all Char.isDigit then
    if digitsToNat t ≤ U64MAX then some (digitsToNat t) else none
  else none

/-- Rust `str::replace(".exe", "")`: every leftmost non-overlapping
occurrence of the pattern is removed, wherever it occurs. -/
def replaceExe : List Char → List Char
  | '.' :: 'e' :: 'x' :: 'e' :: rest => replaceExe rest
  | c :: rest => c :: replaceExe rest
  | [] => []

/-- Rust `u64::to_string` on the `Nat` model of a PID. -/
def natToChars (n : Nat) : List Char :=
  (Nat.repr n).data

/-- The `Process` record of `interface.rs`.  On the Windows variant the
`cpu` field does not exist; the embedding keeps it and the Windows
parser leaves it empty. -/
structure Process where
  command : List Char
  pid : Nat
  mem : List Char
  cpu : List Char
deriving DecidableEq

/-- `Process::new()`: empty strings and the sentinel PID. -/
def Process.new : Process :=
  { command := [], pid := U64MAX, mem := [], cpu := [] }

/-- Outcome of a successfully spawned external command: its exit status
and its standard output (`none` models output that is not valid UTF-8,
`String::from_utf8` failing). -/
structure SpawnResult where
  success : Bool
  stdout : Option (List Char)
deriving DecidableEq

/-- The `Monitor` struct of `interface.rs`. -/
structure Monitor where
  interval : ℚ
  threshold : ℚ
  num_matches : Nat
  current_procs : List Process
deriving DecidableEq

/-- `Monitor::new(inter, thres, num)` with the clamping performed by the
constructor: `inter.max(1.0)`, `thres.max(0.0).min(1.0)`, `num.max(1)`. -/
def Monitor.new (inter thres : ℚ) (num : Nat) : Monitor :=
  { interval := max inter 1
    threshold := min (max thres 0) 1
    num_matches := max num 1
    current_procs := [] }

/-- One line of `ps -A --format comm,pid,%mem,%cpu` output, parsed as in
the POSIX variant of `get_procs_from_system`: column 0 is the command,
column 1 the PID (`parse::<u64>().unwrap_or(u64::MAX)`), column 2 the
memory metric, column 3 the cpu metric.  The record is kept whether or
not the PID parsed. -/
def parsePsLine (line : List Char) : Process :=
  let cols := splitWs line
  { command := (cols[0]?).getD []
    pid := ((cols[1]?).bind parse_u64).getD U64MAX
    mem := (cols[2]?).getD []
    cpu := (cols[3]?).getD [] }

/-- One line of `tasklist /NH /FO TABLE` output, parsed as in the
Windows variant of `get_procs_from_system`: column 0 command, column 1
PID, column 4 memory size, column 5 memory unit.  A record whose PID
stayed at the sentinel is dropped (`none`); otherwise the memory string
becomes `size ++ " " ++ unit ++ "iB"`. -/
def parseTaskLine (line : List Char) : Option Process :=
  let cols := splitWs line
  let pid := ((cols[1]?).bind parse_u64).getD U64MAX
  if pid = U64MAX then none
  else
    some { command := (cols[0]?).getD []
           pid := pid
           mem := ((cols[4]?).getD []) ++ [' '] ++ ((cols[5]?).getD []) ++ ['i', 'B']
           cpu := [] }

/-- Snapshot produced by one parsing pass of the POSIX refresh: the
header line is skipped, every remaining line contributes a record. -/
def posixParse (res : List Char) : List Process :=
  ((rustLines res).drop 1).map parsePsLine

/-- Snapshot produced by one parsing pass of the Windows refresh:
records whose PID failed to parse are dropped. -/
def windowsParse (res : List Char) : List Process :=
  (rustLines res).filterMap parseTaskLine

/-- POSIX `Monitor::get_procs_from_system`.  The `spawn` argument is the
result of `Command::new("ps")...output()`: `none` means the spawn
failed, in which case the source calls `.expect(...)` and panics — the
embedding returns `none` (no normal return).  A non-success exit status
or invalid UTF-8 output returns with the snapshot unchanged; otherwise
the snapshot is replaced wholesale by the parse of the output. -/
def get_procs_from_system_posix (m : Monitor) (spawn : Option SpawnResult) :
    Option Monitor :=
  match spawn with
  | none => none
  | some out =>
    if !out.success then some m
    else
      match out.stdout with
      | none => some m
      | some res => some { m with current_procs := posixParse res }

/-- Windows `Monitor::get_procs_from_system`; same failure structure as
the POSIX variant (spawn failure panics via `.expect`). -/
def get_procs_from_system_windows (m : Monitor) (spawn : Option SpawnResult) :
    Option Monitor :=
  match spawn with
  | none => none
  | some out =>
    if !out.success then some m
    else
      match out.stdout with
      | none => some m
      | some res => some { m with current_procs := windowsParse res }

/-- The `position`-then-`remove` step of `kill_proc`: drop the first
record whose PID equals the argument, keep everything else; if no record
matches, the list is unchanged. -/
def removeFirstPid (pid : Nat) : List Process → List Process
  | [] => []
  | p :: ps => if p.pid = pid then ps else p :: removeFirstPid pid ps

/-- `Monitor::kill_proc`.  The `kr` argument is the outcome of the
external kill command: `none` — the spawn failed (`let Ok(output) = res
else return`), `some false` — it exited with non-success status, `some
true` — it succeeded, in which case the first record with the target's
PID is removed.  Both platform variants have this structure. -/
def kill_proc (m : Monitor) (kr : Option Bool) (target : Process) : Monitor :=
  match kr with
  | none => m
  | some false => m
  | some true => { m with current_procs := removeFirstPid target.pid m.current_procs }

/-- `Monitor::kill_proc_list`: collect the records whose command equals
`name`, then run `kill_proc` on each with its own external outcome
(supplied here as the list `krs`, one entry per collected record). -/
def kill_proc_list (m : Monitor) (name : List Char) (krs : List (Option Bool)) :
    Monitor :=
  let targets := m.current_procs.filter (fun p => decide (p.command = name))
  (targets.zip krs).foldl (fun acc pk => kill_proc acc pk.2 pk.1) m

/-- `Monitor::get_all_procs`: `none` on an empty snapshot, otherwise a
copy of all records. -/
def get_all_procs (m : Monitor) : Option (List Process) :=
  if m.current_procs.length = 0 then none else some m.current_procs

/-- The candidate key built for one record in
`get_procs_by_name_fuzzy`: the stringified PID when searching by PID,
otherwise the command with every occurrence of `".exe"` removed. -/
def candidateKey (search_pid : Bool) (p : Process) : List Char :=
  if search_pid then natToChars p.pid else replaceExe p.command

/-- The full candidate list handed to the fuzzy search, in snapshot
order. -/
def fuzzyRefs (search_pid : Bool) (procs : List Process) : List (List Char) :=
  procs.map (candidateKey search_pid)

/-- Modelled from the spec: the external crate function
`rust_fuzzy_search::fuzzy_search_threshold` is not part of this
repository; per §4.3 of the spec it scores every candidate against the
query with a similarity score and keeps, in supplied order, exactly the
candidates scoring at or above the threshold.  The scoring algorithm
itself is abstracted as the `score` parameter. -/
def fuzzy_search_threshold (score : List Char → List Char → ℚ) (search : List Char)
    (refs : List (List Char)) (threshold : ℚ) : List (List Char × ℚ) :=
  (refs.map (fun r => (r, score search r))).filter (fun kv => decide (threshold ≤ kv.2))

/-- The ordering claimed by the comparator in `get_procs_by_name_fuzzy`:
it returns `Ordering::Less` exactly when `score1 > score2` (and
`Ordering::Greater` otherwise — it never returns `Equal`). -/
def scoreGt (a b : List Char × ℚ) : Prop := b.2 < a.2

instance : DecidableRel scoreGt := fun a b => inferInstanceAs (Decidable (b.2 < a.2))

/-- Rust's stable `sort_by`, modelled as a stable insertion sort: an
element is placed immediately before the first element the comparator
orders it strictly before (`Ordering::Less`), hence after any element it
compares `Greater` to — including equal-score elements, for which the
comparator of the source returns `Greater`. -/
def rustSort (l : List (List Char × ℚ)) : List (List Char × ℚ) :=
  List.insertionSort scoreGt l

/-- The fuzzy ranking stage (spec §4.3 `rank`): threshold filtering,
descending sort by score, truncation to `limit` entries.  In the source
this is the body of `get_procs_by_name_fuzzy` between the
`fuzzy_search_threshold` call and the key lookup. -/
def rank (score : List Char → List Char → ℚ) (search : List Char)
    (refs : List (List Char)) (threshold : ℚ) (limit : Nat) : List (List Char × ℚ) :=
  (rustSort (fuzzy_search_threshold score search refs threshold)).take limit

/-- `Monitor::get_procs_by_name_fuzzy`: build the candidate keys, fuzzy
search with the configured threshold, sort descending, keep the first
`num_matches` keys; `none` when nothing matched, otherwise each key is
resolved to the first snapshot record carrying that key. -/
def get_procs_by_name_fuzzy (score : List Char → List Char → ℚ) (m : Monitor)
    (search : List Char) (search_pid : Bool) : Option (List Process) :=
  let refs := fuzzyRefs search_pid m.current_procs
  let sorted := rustSort (fuzzy_search_threshold score search refs m.threshold)
  let keys := (sorted.map Prod.fst).take m.num_matches
  if keys.isEmpty then none
  else
    some (keys.filterMap (fun k =>
      m.current_procs.find? (fun p => decide (candidateKey search_pid p = k))))

/-- Mode selection performed in `App::run`: search by PID exactly when
the first character of the query is an ASCII digit
(`chars().next().map(|c| c.is_ascii_digit()).unwrap_or(false)`). -/
def searchPidMode (search : List Char) : Bool :=
  match search with
  | [] => false
  | c :: _ => c.isDigit

/-- The candidate list the UI loop works with each tick (`App::run`
lines 245–257): fuzzy search when the query is non-empty, otherwise all
records; a `None` result is replaced by the empty list. -/
def appCurrentProcs (score : List Char → List Char → ℚ) (m : Monitor)
    (search : List Char) : List Process :=
  if 0 < search.length then
    (get_procs_by_name_fuzzy score m search (searchPidMode search)).getD []
  else
    (get_all_procs m).getD []

/-- The PID lookup used on a snapshot (the `position`-based first-match
search of `kill_proc` and the analogous key lookups): the first record
whose PID equals the argument. -/
def findByPid (pid : Nat) (l : List Process) : Option Process :=
  l.find? (fun p => decide (p.pid = pid))

/-- Modelled from the spec: §4.3 describes the non-PID candidate keys as
"command names with any trailing `.exe`-style suffix stripped"; this
definition follows the spec's words (strip one trailing `.exe` suffix,
if present) and exists only to be compared with `replaceExe`, the
definition taken from the source. -/
def stripTrailingExe (s : List Char) : List Char :=
  if (['.', 'e', 'x', 'e']).isSuffixOf s then s.take (s.length - 4) else s

/-- The selection state of `App`: `current_line` is the scroll offset
(rows skipped before the viewport), `pointer` the index inside the
viewport. -/
structure SelState where
  current_line : Nat
  pointer : Nat
deriving DecidableEq

/-- The `KeyCode::Down` / mouse scroll-down handler of `App::run`:
`count` is the length of the candidate list and `num_lines` the viewport
row count, both as of the preceding draw.  First try to advance the
scroll offset, clamped at `count − (num_lines − 2)`; only if it did not
move, advance the pointer, clamped at `count − (current_line + 1)`.
All subtractions saturate (`usize::saturating_sub` / `Nat` subtraction). -/
def moveDown (count num_lines : Nat) (st : SelState) : SelState :=
  let cl := min (st.current_line + 1) (count - (num_lines - 2))
  if cl = st.current_line then
    { st with pointer := min (st.pointer + 1) (count - (cl + 1)) }
  else
    { st with current_line := cl }

/-- The `KeyCode::Up` / mouse scroll-up handler of `App::run`: decrement
the scroll offset (saturating); only if it did not move, decrement the
pointer (saturating). -/
def moveUp (st : SelState) : SelState :=
  let cl := st.current_line - 1
  if cl = st.current_line then
    { st with pointer := st.pointer - 1 }
  else
    { st with current_line := cl }

/-- Input intents affecting the selection state.  A resize is modelled
by the `count` / `num_lines` parameters carried by each `moveDown`
event: they are re-read from the current tick every time, exactly as
`App::run` re-reads `current_procs.iter().count()` and `num_lines`. -/
inductive SelEvent where
  | moveDown (count num_lines : Nat)
  | moveUp
  | queryChanged
  | reset
deriving DecidableEq

/-- One step of the selection state machine: `queryChanged` (a character
typed or erased) and `reset` (`ctrl+r` / `ctrl+b`) zero both fields. -/
def selStep (st : SelState) : SelEvent → SelState
  | .moveDown count num_lines => moveDown count num_lines st
  | .moveUp => moveUp st
  | .queryChanged => { current_line := 0, pointer := 0 }
  | .reset => { current_line := 0, pointer := 0 }

/-- Run of a finite event sequence over the selection state. -/
def selRun (evs : List SelEvent) (st : SelState) : SelState :=
  evs.foldl selStep st

/-! Concrete records, monitors and inputs used by the counterexample and
witness theorems below. -/

/-- A sample record with PID 7. -/
def procA : Process :=
  { command := ("alpha").data, pid := 7, mem := [], cpu := [] }

/-- A sample record with PID 3. -/
def procB : Process :=
  { command := ("beta").data, pid := 3, mem := [], cpu := [] }

/-- A monitor holding the single record `procA`. -/
def demoMonitor : Monitor :=
  { interval := 3, threshold := 0, num_matches := 25, current_procs := [procA] }

/-- A similarity score usable as the abstract `score` parameter: 1 on an
exact match, 0 otherwise. -/
def eqScore (q c : List Char) : ℚ :=
  if q = c then 1 else 0

/-- A record whose command contains `".exe"` in the middle as well as at
the end. -/
def procExe : Process :=
  { command := ("a.exeb.exe").data, pid := 3, mem := [], cpu := [] }

/-- A monitor holding the single record `procExe`, threshold 1. -/
def monExe : Monitor :=
  { interval := 3, threshold := 1, num_matches := 5, current_procs := [procExe] }

/-- Two well-formed `tasklist`-style lines that carry the same PID. -/
def dupPidText : List Char :=
  ("a 5 x y 100 K\nb 5 x y 200 K").data

/-- The record the Windows parser produces from the first line of
`dupPidText`. -/
def dupRec1 : Process :=
  { command := ['a'], pid := 5, mem := ("100 KiB").data, cpu := [] }

/-- The record the Windows parser produces from the second line of
`dupPidText`. -/
def dupRec2 : Process :=
  { command := ['b'], pid := 5, mem := ("200 KiB").data, cpu := [] }

/-! Theorems. -/

set_option maxRecDepth 8000

/-- Claim C1: the selection invariant fails on the code.  With a fixed
candidate count of 10, nine `MoveDown` events under a viewport of 12
rows drive the state to `(0, 9)`; after a resize shrinks the viewport to
3 rows, one further `MoveDown` advances the scroll offset without
re-clamping the pointer, reaching `(1, 9)`: the absolute selected index
`scroll_offset + pointer = 10` lies outside `[0, total_count − 1] =
[0, 9]` even though `total_count = 10 > 0` throughout. -/
theorem selection_invariant_violated_on_resize :
    selRun (List.replicate 9 (SelEvent.moveDown 10 12) ++ [SelEvent.moveDown 10 3])
        ⟨0, 0⟩ = ⟨1, 9⟩ ∧
    ¬ ((selRun (List.replicate 9 (SelEvent.moveDown 10 12) ++ [SelEvent.moveDown 10 3])
        ⟨0, 0⟩).current_line +
       (selRun (List.replicate 9 (SelEvent.moveDown 10 12) ++ [SelEvent.moveDown 10 3])
        ⟨0, 0⟩).pointer ≤ 10 - 1) := by
  decide

/-- Claim C2, counterexample: when the spawn of the external listing
facility fails (`spawn = none`), `get_procs_from_system` does not return
with the snapshot retained — the source calls `.expect(...)` and
panics, modelled as `none` — so the claim's spawn-failure case is
false. -/
theorem refresh_spawn_failure_panics_cex :
    get_procs_from_system_posix demoMonitor none = none ∧
    get_procs_from_system_windows demoMonitor none = none ∧
    (none : Option Monitor) ≠ some demoMonitor := by
  refine ⟨rfl, rfl, by decide⟩

/-- Claim C2, amended: if the listing facility exits with non-success
status, or its output is not valid text, the refresh returns with the
stored snapshot exactly as it was and surfaces no error; if the spawn
itself fails, the call panics instead of returning. -/
theorem refresh_error_handling_amended (m : Monitor) (out : Option (List Char)) :
    get_procs_from_system_posix m (some ⟨false, out⟩) = some m ∧
    get_procs_from_system_posix m (some ⟨true, none⟩) = some m ∧
    get_procs_from_system_posix m none = none ∧
    get_procs_from_system_windows m (some ⟨false, out⟩) = some m ∧
    get_procs_from_system_windows m (some ⟨true, none⟩) = some m ∧
    get_procs_from_system_windows m none = none :=
  ⟨rfl, rfl, rfl, rfl, rfl, rfl⟩

/-- Claim C4, counterexample: with 30 records, nine consecutive
`MoveDown` intents from `(0, 0)` yield `(9, 0)` — the scroll offset
advances first, not the pointer — and not the claimed `(0, 9)`.  This
holds whether the claim's "viewport capacity 10" is read as 10 viewport
rows (`num_lines = 10`) or as a scroll margin of 10 (`num_lines = 12`,
the reading under which the claim's final state matches the code). -/
theorem moveDown_scenario_cex :
    selRun (List.replicate 9 (SelEvent.moveDown 30 12)) ⟨0, 0⟩ = ⟨9, 0⟩ ∧
    selRun (List.replicate 9 (SelEvent.moveDown 30 10)) ⟨0, 0⟩ = ⟨9, 0⟩ ∧
    (⟨9, 0⟩ : SelState) ≠ ⟨0, 9⟩ := by
  decide

/-- Claim C4, amended: with 30 records and `num_lines = 12` (so that
the scroll clamp `count − (num_lines − 2)` equals 20, the spec's
viewport capacity 10), nine consecutive `MoveDown` intents from
`(0, 0)` yield `(9, 0)`; a tenth yields `(10, 0)`; twenty further
intents yield `(20, 9)`; and one more leaves `(20, 9)` unchanged. -/
theorem moveDown_scenario_amended :
    selRun (List.replicate 9 (SelEvent.moveDown 30 12)) ⟨0, 0⟩ = ⟨9, 0⟩ ∧
    selRun (List.replicate 10 (SelEvent.moveDown 30 12)) ⟨0, 0⟩ = ⟨10, 0⟩ ∧
    selRun (List.replicate 30 (SelEvent.moveDown 30 12)) ⟨0, 0⟩ = ⟨20, 9⟩ ∧
    selRun (List.replicate 31 (SelEvent.moveDown 30 12)) ⟨0, 0⟩ = ⟨20, 9⟩ := by
  decide

/-- Membership in the modelled Rust sort is membership in its input. -/
theorem mem_rustSort {kv : List Char × ℚ} {l : List (List Char × ℚ)} :
    kv ∈ rustSort l ↔ kv ∈ l :=
  List.mem_insertionSort scoreGt

/-- Inserting an element the comparator orders strictly before every
element of the right block inserts into the left block. -/
theorem orderedInsert_append_of_lt_right {α : Type} (r : α → α → Prop) [DecidableRel r]
    (x : α) (A B : List α) :
    (∀ y ∈ B, r x y) →
      List.orderedInsert r x (A ++ B) = List.orderedInsert r x A ++ B := by
  induction A with
  | nil =>
    intro h
    cases B with
    | nil => rfl
    | cons b bs => simp [List.orderedInsert, h b (List.mem_cons_self b bs)]
  | cons a as ih =>
    intro h
    by_cases hxa : r x a
    · simp [List.orderedInsert, hxa]
    · simp [List.orderedInsert, hxa, ih h]

/-- Inserting an element the comparator never orders before an element
of the left block inserts into the right block. -/
theorem orderedInsert_append_of_not_lt_left {α : Type} (r : α → α → Prop) [DecidableRel r]
    (x : α) (A B : List α) :
    (∀ y ∈ A, ¬ r x y) →
      List.orderedInsert r x (A ++ B) = A ++ List.orderedInsert r x B := by
  induction A with
  | nil => intro _; rfl
  | cons a as ih =>
    intro h
    have hrec := ih (fun y hy => h y (List.mem_cons_of_mem a hy))
    simp [List.orderedInsert, h a (List.mem_cons_self a as), hrec]

/-- Sorting a list whose elements fall into a class strictly preferred
by the comparator and its complement sorts the two classes
independently, the preferred class first. -/
theorem insertionSort_split {α : Type} (r : α → α → Prop) [DecidableRel r] (p : α → Bool) :
    ∀ l : List α,
      (∀ x ∈ l, ∀ y ∈ l, p x = true → p y = false → r x y ∧ ¬ r y x) →
      List.insertionSort r l =
        List.insertionSort r (l.filter p) ++
          List.insertionSort r (l.filter fun a => !(p a)) := by
  intro l
  induction l with
  | nil => intro _; rfl
  | cons a as ih =>
    intro h
    have hrec := ih fun x hx y hy =>
      h x (List.mem_cons_of_mem a hx) y (List.mem_cons_of_mem a hy)
    by_cases hpa : p a = true
    · have hall : ∀ y ∈ List.insertionSort r (as.filter fun b => !(p b)), r a y := by
        intro y hy
        have hy' := List.mem_filter.mp ((List.mem_insertionSort r).mp hy)
        exact (h a (List.mem_cons_self a as) y (List.mem_cons_of_mem a hy'.1) hpa
          (by simpa using hy'.2)).1
      calc List.insertionSort r (a :: as)
          = List.orderedInsert r a
              (List.insertionSort r (as.filter p) ++
                List.insertionSort r (as.filter fun b => !(p b))) := by
            simp only [List.insertionSort, hrec]
        _ = List.orderedInsert r a (List.insertionSort r (as.filter p)) ++
              List.insertionSort r (as.filter fun b => !(p b)) :=
            orderedInsert_append_of_lt_right r a _ _ hall
        _ = List.insertionSort r ((a :: as).filter p) ++
              List.insertionSort r ((a :: as).filter fun b => !(p b)) := by
            simp [List.filter_cons, hpa, List.insertionSort]
    · have hpa' : p a = false := Bool.not_eq_true (p a) ▸ hpa
      have hall : ∀ y ∈ List.insertionSort r (as.filter p), ¬ r a y := by
        intro y hy
        have hy' := List.mem_filter.mp ((List.mem_insertionSort r).mp hy)
        exact (h y (List.mem_cons_of_mem a hy'.1) a (List.mem_cons_self a as)
          hy'.2 hpa').2
      calc List.insertionSort r (a :: as)
          = List.orderedInsert r a
              (List.insertionSort r (as.filter p) ++
                List.insertionSort r (as.filter fun b => !(p b))) := by
            simp only [List.insertionSort, hrec]
        _ = List.insertionSort r (as.filter p) ++
              List.orderedInsert r a (List.insertionSort r (as.filter fun b => !(p b))) :=
            orderedInsert_append_of_not_lt_left r a _ _ hall
        _ = List.insertionSort r ((a :: as).filter p) ++
              List.insertionSort r ((a :: as).filter fun b => !(p b)) := by
            simp [List.filter_cons, hpa', List.insertionSort]

/-- Inserting into a list that is non-increasing in score keeps it
non-increasing, for the comparator of the source. -/
theorem pairwise_orderedInsert_ge (x : List Char × ℚ) :
    ∀ l : List (List Char × ℚ), l.Pairwise (fun a b => b.2 ≤ a.2) →
      (List.orderedInsert scoreGt x l).Pairwise (fun a b => b.2 ≤ a.2) := by
  intro l
  induction l with
  | nil => intro _; simp
  | cons y ys ih =>
    intro hl
    rcases List.pairwise_cons.mp hl with ⟨hy, hys⟩
    by_cases hxy : scoreGt x y
    · rw [List.orderedInsert, if_pos hxy]
      refine List.pairwise_cons.mpr ⟨?_, hl⟩
      intro z hz
      rcases List.mem_cons.mp hz with rfl | hz
      · exact le_of_lt hxy
      · exact le_trans (hy z hz) (le_of_lt hxy)
    · rw [List.orderedInsert, if_neg hxy]
      refine List.pairwise_cons.mpr ⟨?_, ih hys⟩
      intro z hz
      rcases (List.mem_orderedInsert scoreGt).mp hz with rfl | hz
      · exact not_lt.mp hxy
      · exact hy z hz

/-- The modelled Rust sort yields a list that is non-increasing in
score. -/
theorem pairwise_rustSort (l : List (List Char × ℚ)) :
    (rustSort l).Pairwise (fun a b => b.2 ≤ a.2) := by
  induction l with
  | nil => simp [rustSort]
  | cons x xs ih =>
    simpa [rustSort, List.insertionSort] using pairwise_orderedInsert_ge x _ ih

/-- Claim C3, amended: the sequence returned by the fuzzy ranking stage
is sorted by non-increasing similarity score and its length never
exceeds the configured limit; the clause about equal-score candidates
retaining their supplied order is dropped — the comparator never
returns `Ordering::Equal`, so tied candidates come out in reversed
supplied order instead (see the counterexample). -/
theorem rank_sorted_and_bounded (score : List Char → List Char → ℚ) (search : List Char)
    (refs : List (List Char)) (threshold : ℚ) (limit : Nat) :
    (rank score search refs threshold limit).Pairwise (fun a b => b.2 ≤ a.2) ∧
    (rank score search refs threshold limit).length ≤ limit := by
  unfold rank
  exact ⟨(pairwise_rustSort _).sublist (List.take_sublist _ _), List.length_take_le _ _⟩

/-- Filtering at the lower threshold, then sorting, gives the sorted
higher-threshold keep-list followed by the sorted mid-score list. -/
theorem rustSort_filter_split (t1 t2 : ℚ) (l : List (List Char × ℚ)) :
    t1 ≤ t2 →
      rustSort (l.filter fun kv => decide (t1 ≤ kv.2)) =
        rustSort (l.filter fun kv => decide (t2 ≤ kv.2)) ++
          rustSort ((l.filter fun kv => decide (t1 ≤ kv.2)).filter
            fun kv => !(decide (t2 ≤ kv.2))) := by
  intro h12
  have hfil : (l.filter fun kv => decide (t1 ≤ kv.2)).filter
      (fun kv => decide (t2 ≤ kv.2)) = l.filter fun kv => decide (t2 ≤ kv.2) := by
    rw [List.filter_filter]
    apply List.filter_congr
    intro kv _
    by_cases h2 : t2 ≤ kv.2
    · simp [h2, le_trans h12 h2]
    · simp [h2]
  have hsplit := insertionSort_split scoreGt (fun kv => decide (t2 ≤ kv.2))
    (l.filter fun kv => decide (t1 ≤ kv.2)) ?_
  · rw [rustSort, hsplit, hfil]; rfl
  · intro x _ y _ hxT hyT
    have hx2 : t2 ≤ x.2 := of_decide_eq_true hxT
    have hy2 : y.2 < t2 := not_le.mp (of_decide_eq_false hyT)
    exact ⟨lt_of_lt_of_le hy2 hx2, not_lt.mpr (le_of_lt (lt_of_lt_of_le hy2 hx2))⟩

/-- Claim C6: threshold monotonicity of the ranking stage — every
candidate/score pair present in the ranked result at threshold `t2` is
present in the ranked result at any lower threshold `t1`.  The mid-score
candidates admitted by the lower threshold sort strictly after every
`t2`-qualifier, so the truncation to `limit` keeps every pair the higher
threshold kept. -/
theorem rank_threshold_monotone (score : List Char → List Char → ℚ) (search : List Char)
    (refs : List (List Char)) (limit : Nat) (t1 t2 : ℚ) (h12 : t1 < t2)
    (kv : List Char × ℚ) (hmem : kv ∈ rank score search refs t2 limit) :
    kv ∈ rank score search refs t1 limit := by
  unfold rank fuzzy_search_threshold at hmem ⊢
  rw [rustSort_filter_split t1 t2 _ (le_of_lt h12), List.take_append_eq_append_take]
  exact List.mem_append_left _ hmem

/-- Claim C6, witness: a concrete instance with thresholds 0 < 1. -/
theorem rank_threshold_monotone_witness :
    (0 : ℚ) < 1 ∧ (['a'], (1 : ℚ)) ∈ rank (fun _ _ => (1 : ℚ)) [] [['a']] 0 1 :=
  ⟨by decide, rank_threshold_monotone (fun _ _ => (1 : ℚ)) [] [['a']] 1 0 1 (by decide)
    (['a'], (1 : ℚ)) (by decide)⟩

/-- Claim C3, counterexample: two candidates supplied in the order
`"a"`, `"b"` with the equal score 1 come out of the ranking stage in
the order `"b"`, `"a"` — the comparator returns `Ordering::Greater` on
equal scores, so ties do not retain the order in which the candidates
were supplied. -/
theorem rank_equal_scores_reversed_cex :
    rank (fun _ _ => (1 : ℚ)) [] [['a'], ['b']] 0 5 =
      [(['b'], (1 : ℚ)), (['a'], (1 : ℚ))] ∧
    rank (fun _ _ => (1 : ℚ)) [] [['a'], ['b']] 0 5 ≠
      [(['a'], (1 : ℚ)), (['b'], (1 : ℚ))] := by
  decide

/-- A list without the target PID is unchanged by the removal step. -/
theorem removeFirstPid_of_forall_ne (pid : Nat) :
    ∀ l : List Process, (∀ q ∈ l, q.pid ≠ pid) → removeFirstPid pid l = l := by
  intro l
  induction l with
  | nil => intro _; rfl
  | cons p ps ih =>
    intro h
    rw [removeFirstPid, if_neg (h p (List.mem_cons_self p ps)),
      ih fun q hq => h q (List.mem_cons_of_mem p hq)]

/-- The removal step deletes exactly the first record carrying the
target PID. -/
theorem removeFirstPid_append (pid : Nat) (r : Process) (l2 : List Process) :
    ∀ l1 : List Process, (∀ q ∈ l1, q.pid ≠ pid) → r.pid = pid →
      removeFirstPid pid (l1 ++ r :: l2) = l1 ++ l2 := by
  intro l1
  induction l1 with
  | nil => intro _ hr; simp [removeFirstPid, hr]
  | cons q qs ih =>
    intro h hr
    simp [removeFirstPid, h q (List.mem_cons_self q qs),
      ih (fun x hx => h x (List.mem_cons_of_mem q hx)) hr]

/-- Claim C5: `kill_proc` leaves the snapshot completely unchanged when
the external termination facility fails to spawn or exits with
non-success status; on success it removes exactly the first record
whose PID equals the argument's PID and no other record (and is a no-op
when no record carries that PID).  The operation returns no error in
any case — its Rust return type is `()`, modelled by the total function
`kill_proc` always returning a `Monitor`. -/
theorem kill_proc_spec (m : Monitor) (target : Process) (kr : Option Bool)
    (l1 l2 : List Process) (r : Process) :
    (kr ≠ some true → kill_proc m kr target = m) ∧
    ((∀ q ∈ l1, q.pid ≠ target.pid) → r.pid = target.pid →
      (kill_proc { m with current_procs := l1 ++ r :: l2 }
        (some true) target).current_procs = l1 ++ l2) ∧
    ((∀ q ∈ m.current_procs, q.pid ≠ target.pid) →
      kill_proc m (some true) target = m) := by
  refine ⟨?_, ?_, ?_⟩
  · intro h
    cases kr with
    | none => rfl
    | some b =>
      cases b with
      | false => rfl
      | true => exact absurd rfl h
  · intro h hr
    exact removeFirstPid_append target.pid r l2 l1 h hr
  · intro h
    show ({ m with current_procs := removeFirstPid target.pid m.current_procs } : Monitor) = m
    rw [removeFirstPid_of_forall_ne target.pid m.current_procs h]

/-- Claim C5, witness: killing `procB` (PID 3) out of the snapshot
`[procA, procB]` removes exactly `procB`. -/
theorem kill_proc_spec_witness :
    (∀ q ∈ [procA], q.pid ≠ procB.pid) ∧ procB.pid = procB.pid ∧
    (kill_proc { demoMonitor with current_procs := [procA] ++ procB :: [] }
      (some true) procB).current_procs = [procA] ++ [] :=
  ⟨by decide, rfl,
    (kill_proc_spec demoMonitor procB (some true) [procA] [] procB).2.1 (by decide) rfl⟩

/-- A record produced by the Windows line parser never carries the
sentinel PID. -/
theorem parseTaskLine_pid_ne (line : List Char) (p : Process) :
    parseTaskLine line = some p → p.pid ≠ U64MAX := by
  unfold parseTaskLine
  by_cases hpid : (((splitWs line)[1]?).bind parse_u64).getD U64MAX = U64MAX
  · rw [if_pos hpid]
    intro h
    cases h
  · rw [if_neg hpid]
    intro h
    injection h with h2
    rw [← h2]
    exact hpid

/-- The PID lookup resolves to the first matching record. -/
theorem findByPid_first (pid : Nat) (r : Process) (l2 : List Process) :
    ∀ l1 : List Process, (∀ q ∈ l1, q.pid ≠ pid) → r.pid = pid →
      findByPid pid (l1 ++ r :: l2) = some r := by
  intro l1
  induction l1 with
  | nil =>
    intro _ hr
    simp [findByPid, List.find?, hr]
  | cons q qs ih =>
    intro h hr
    have hq : q.pid ≠ pid := h q (List.mem_cons_self q qs)
    show List.find? (fun p => decide (p.pid = pid)) ((q :: qs) ++ r :: l2) = some r
    rw [List.cons_append,
      show List.find? (fun p => decide (p.pid = pid)) (q :: (qs ++ r :: l2)) =
          List.find? (fun p => decide (p.pid = pid)) (qs ++ r :: l2) from
        List.find?_cons_of_neg _ (by simp [hq])]
    exact ih (fun x hx => h x (List.mem_cons_of_mem q hx)) hr

/-- Claim C7, counterexample: two well-formed `tasklist` lines carrying
the same PID both survive the Windows parsing pass, so a snapshot
produced by one parsing pass can contain two retained records sharing a
PID — the dropping rule only removes lines whose PID fails to parse, it
does not enforce uniqueness. -/
theorem windows_duplicate_pid_cex :
    windowsParse dupPidText = [dupRec1, dupRec2] ∧
    dupRec1.pid = dupRec2.pid ∧
    ¬ (windowsParse dupPidText).Pairwise (fun a b => a.pid ≠ b.pid) := by
  have he : windowsParse dupPidText = [dupRec1, dupRec2] := by decide
  refine ⟨he, rfl, ?_⟩
  rw [he]
  intro h
  exact (List.pairwise_cons.mp h).1 dupRec2 (List.mem_cons_self _ _) rfl

/-- Claim C7, amended: on the Windows-like variant every retained record
has a successfully parsed PID (lines whose PID fails to parse are
dropped entirely), but uniqueness of retained PIDs is not enforced by
the parser; on both variants a PID lookup over the snapshot resolves
deterministically to the first matching record. -/
theorem snapshot_pid_amended (res : List Char) (pid : Nat) (r : Process)
    (l1 l2 : List Process) :
    (∀ p ∈ windowsParse res, p.pid ≠ U64MAX) ∧
    ((∀ q ∈ l1, q.pid ≠ pid) → r.pid = pid →
      findByPid pid (l1 ++ r :: l2) = some r) := by
  constructor
  · intro p hp
    rcases List.mem_filterMap.mp hp with ⟨line, _, hline⟩
    exact parseTaskLine_pid_ne line p hline
  · exact fun h hr => findByPid_first pid r l2 l1 h hr

/-- Claim C7, witness: looking PID 3 up in `[procA, procB, procA]`
returns `procB`, the first record with that PID. -/
theorem snapshot_pid_amended_witness :
    (∀ q ∈ [procA], q.pid ≠ 3) ∧ procB.pid = 3 ∧
    findByPid 3 ([procA] ++ procB :: [procA]) = some procB :=
  ⟨by decide, rfl,
    (snapshot_pid_amended [] 3 procB [procA] [procA]).2 (by decide) rfl⟩

/-- Claim C8, counterexample: for the record whose command is
`"a.exeb.exe"`, the key the code actually matches against
(`replaceExe`, every occurrence of `".exe"` removed) differs from the
spec's trailing-suffix-stripped key; querying with the trailing-stripped
command itself — which scores an exact match of 1, at or above the
monitor's threshold — still returns nothing, because the code compared
against a different key. -/
theorem exe_strip_not_trailing_cex :
    candidateKey false procExe ≠ stripTrailingExe procExe.command ∧
    eqScore (stripTrailingExe procExe.command) (stripTrailingExe procExe.command) = 1 ∧
    monExe.threshold ≤ 1 ∧
    get_procs_by_name_fuzzy eqScore monExe (stripTrailingExe procExe.command) false =
      none := by
  refine ⟨by decide, by decide, by decide, by decide⟩

/-- Claim C8, amended: queries whose first character is an ASCII digit
are fuzzy-matched against the stringified PIDs; every other non-empty
query is matched against command names with every occurrence of
`".exe"` removed (not only a trailing suffix); and every record the
search returns is a member of the stored snapshot, hence carries the
unmodified command string. -/
theorem fuzzy_mode_selection (score : List Char → List Char → ℚ) (m : Monitor)
    (c : Char) (cs : List Char) :
    (c.isDigit = true →
      appCurrentProcs score m (c :: cs) =
        (get_procs_by_name_fuzzy score m (c :: cs) true).getD []) ∧
    (c.isDigit = false →
      appCurrentProcs score m (c :: cs) =
        (get_procs_by_name_fuzzy score m (c :: cs) false).getD []) ∧
    fuzzyRefs true m.current_procs =
      m.current_procs.map (fun p => natToChars p.pid) ∧
    fuzzyRefs false m.current_procs =
      m.current_procs.map (fun p => replaceExe p.command) ∧
    (∀ (l : List Process) (sp : Bool),
      get_procs_by_name_fuzzy score m (c :: cs) sp = some l →
      ∀ p ∈ l, p ∈ m.current_procs) := by
  refine ⟨?_, ?_, ?_, ?_, ?_⟩
  · intro h
    simp [appCurrentProcs, searchPidMode, h]
  · intro h
    simp [appCurrentProcs, searchPidMode, h]
  · simp [fuzzyRefs, candidateKey]
  · simp [fuzzyRefs, candidateKey]
  · intro l sp h p hp
    simp only [get_procs_by_name_fuzzy] at h
    split at h
    · exact absurd h (by simp)
    · cases h
      rcases List.mem_filterMap.mp hp with ⟨k, _, hfind⟩
      exact List.mem_of_find?_eq_some hfind

/-- Claim C8, witness: a query starting with the digit `'4'` selects the
PID-matching mode. -/
theorem fuzzy_mode_selection_witness :
    Char.isDigit '4' = true ∧
    appCurrentProcs eqScore demoMonitor ['4'] =
      (get_procs_by_name_fuzzy eqScore demoMonitor ['4'] true).getD [] :=
  ⟨by decide, (fuzzy_mode_selection eqScore demoMonitor '4' []).1 (by decide)⟩

/-- The kill operation never touches the three configuration fields. -/
theorem kill_proc_config (m : Monitor) (kr : Option Bool) (t : Process) :
    (kill_proc m kr t).interval = m.interval ∧
    (kill_proc m kr t).threshold = m.threshold ∧
    (kill_proc m kr t).num_matches = m.num_matches := by
  cases kr with
  | none => exact ⟨rfl, rfl, rfl⟩
  | some b => cases b <;> exact ⟨rfl, rfl, rfl⟩

/-- Iterated kills never touch the three configuration fields. -/
theorem foldl_kill_config (pairs : List (Process × Option Bool)) :
    ∀ acc : Monitor,
      (pairs.foldl (fun acc pk => kill_proc acc pk.2 pk.1) acc).interval = acc.interval ∧
      (pairs.foldl (fun acc pk => kill_proc acc pk.2 pk.1) acc).threshold = acc.threshold ∧
      (pairs.foldl (fun acc pk => kill_proc acc pk.2 pk.1) acc).num_matches =
        acc.num_matches := by
  induction pairs with
  | nil => intro acc; exact ⟨rfl, rfl, rfl⟩
  | cons pk rest ih =>
    intro acc
    have h1 := kill_proc_config acc pk.2 pk.1
    have h2 := ih (kill_proc acc pk.2 pk.1)
    exact ⟨h2.1.trans h1.1, h2.2.1.trans h1.2.1, h2.2.2.trans h1.2.2⟩

/-- A POSIX refresh that returns normally preserves the configuration
fields. -/
theorem refresh_config_posix (m m2 : Monitor) (spawn : Option SpawnResult) :
    get_procs_from_system_posix m spawn = some m2 →
      m2.interval = m.interval ∧ m2.threshold = m.threshold ∧
        m2.num_matches = m.num_matches := by
  cases spawn with
  | none => intro h; cases h
  | some out =>
    cases out with
    | mk succ sout =>
      intro h
      cases succ with
      | false =>
        simp [get_procs_from_system_posix] at h
        subst h
        exact ⟨rfl, rfl, rfl⟩
      | true =>
        cases sout with
        | none =>
          simp [get_procs_from_system_posix] at h
          subst h
          exact ⟨rfl, rfl, rfl⟩
        | some res =>
          simp [get_procs_from_system_posix] at h
          subst h
          exact ⟨rfl, rfl, rfl⟩

/-- A Windows refresh that returns normally preserves the configuration
fields. -/
theorem refresh_config_windows (m m2 : Monitor) (spawn : Option SpawnResult) :
    get_procs_from_system_windows m spawn = some m2 →
      m2.interval = m.interval ∧ m2.threshold = m.threshold ∧
        m2.num_matches = m.num_matches := by
  cases spawn with
  | none => intro h; cases h
  | some out =>
    cases out with
    | mk succ sout =>
      intro h
      cases succ with
      | false =>
        simp [get_procs_from_system_windows] at h
        subst h
        exact ⟨rfl, rfl, rfl⟩
      | true =>
        cases sout with
        | none =>
          simp [get_procs_from_system_windows] at h
          subst h
          exact ⟨rfl, rfl, rfl⟩
        | some res =>
          simp [get_procs_from_system_windows] at h
          subst h
          exact ⟨rfl, rfl, rfl⟩

/-- Claim C9: the constructed configuration satisfies `interval =
max(inter, 1)`, `threshold ∈ [0, 1]` with `threshold = thres` whenever
`thres` is already in range, and `num_matches = max(num, 1)`; and none
of the three fields is changed by any state-mutating operation of the
embedding (refresh on either platform, a kill, or an iterated kill). -/
theorem monitor_config_spec (inter thres : ℚ) (num : Nat) (m m2 m3 : Monitor)
    (spawn : Option SpawnResult) (kr : Option Bool) (target : Process)
    (name : List Char) (krs : List (Option Bool)) :
    (Monitor.new inter thres num).interval = max inter 1 ∧
    0 ≤ (Monitor.new inter thres num).threshold ∧
    (Monitor.new inter thres num).threshold ≤ 1 ∧
    (0 ≤ thres → thres ≤ 1 → (Monitor.new inter thres num).threshold = thres) ∧
    (Monitor.new inter thres num).num_matches = max num 1 ∧
    (get_procs_from_system_posix m spawn = some m2 →
      m2.interval = m.interval ∧ m2.threshold = m.threshold ∧
        m2.num_matches = m.num_matches) ∧
    (get_procs_from_system_windows m spawn = some m3 →
      m3.interval = m.interval ∧ m3.threshold = m.threshold ∧
        m3.num_matches = m.num_matches) ∧
    ((kill_proc m kr target).interval = m.interval ∧
      (kill_proc m kr target).threshold = m.threshold ∧
      (kill_proc m kr target).num_matches = m.num_matches) ∧
    ((kill_proc_list m name krs).interval = m.interval ∧
      (kill_proc_list m name krs).threshold = m.threshold ∧
      (kill_proc_list m name krs).num_matches = m.num_matches) := by
  refine ⟨rfl, ?_, ?_, ?_, rfl, refresh_config_posix m m2 spawn,
    refresh_config_windows m m3 spawn, kill_proc_config m kr target, ?_⟩
  · exact le_min (le_max_right thres 0) zero_le_one
  · exact min_le_right _ 1
  · intro h0 h1
    show min (max thres 0) 1 = thres
    rw [max_eq_left h0, min_eq_left h1]
  · exact foldl_kill_config _ m

/-- Claim C9, witness: with `thres = 1` (already in range) the stored
threshold is exactly 1. -/
theorem monitor_config_spec_witness :
    (0 : ℚ) ≤ 1 ∧ (1 : ℚ) ≤ 1 ∧ (Monitor.new 3 1 25).threshold = 1 :=
  ⟨by decide, by decide,
    (monitor_config_spec 3 1 25 demoMonitor demoMonitor demoMonitor none none
      Process.new [] []).2.2.2.1 (by decide) (by decide)⟩

/-- Claim C10: neither `get_all_procs` nor `get_procs_by_name_fuzzy`
ever returns `some` of an empty list — an empty snapshot or an empty
match set yields `none`, so every `some` result holds at least one
record. -/
theorem some_results_nonempty (score : List Char → List Char → ℚ) (m : Monitor)
    (search : List Char) (sp : Bool) (l : List Process) :
    (get_all_procs m = some l → l ≠ []) ∧
    (get_procs_by_name_fuzzy score m search sp = some l → l ≠ []) := by
  constructor
  · intro h
    unfold get_all_procs at h
    by_cases hc : m.current_procs.length = 0
    · simp [hc] at h
    · rw [if_neg hc] at h
      injection h with h2
      rw [← h2]
      intro hnil
      exact hc (by simp [hnil])
  · intro h
    simp only [get_procs_by_name_fuzzy] at h
    split at h
    · exact absurd h (by simp)
    · rename_i hkeys
      cases h
      rw [List.isEmpty_eq_true] at hkeys
      rcases List.exists_mem_of_ne_nil _ hkeys with ⟨k, hk⟩
      have hk1 : k ∈ (rustSort (fuzzy_search_threshold score search
          (fuzzyRefs sp m.current_procs) m.threshold)).map Prod.fst :=
        List.mem_of_mem_take hk
      rcases List.mem_map.mp hk1 with ⟨kv, hkv, hkvfst⟩
      have hkv2 : kv ∈ fuzzy_search_threshold score search
          (fuzzyRefs sp m.current_procs) m.threshold := mem_rustSort.mp hkv
      have hkv3 : kv ∈ (fuzzyRefs sp m.current_procs).map
          (fun r => (r, score search r)) := (List.mem_filter.mp hkv2).1
      rcases List.mem_map.mp hkv3 with ⟨ref, href, hrefkv⟩
      rcases List.mem_map.mp href with ⟨p0, hp0, hp0ref⟩
      have hfind : ∃ q, m.current_procs.find?
          (fun p => decide (candidateKey sp p = k)) = some q := by
        rw [← Option.isSome_iff_exists]
        rw [List.find?_isSome]
        exact ⟨p0, hp0, by simp [hp0ref, ← hkvfst, ← hrefkv]⟩
      rcases hfind with ⟨q, hq⟩
      have : q ∈ (((rustSort (fuzzy_search_threshold score search
          (fuzzyRefs sp m.current_procs) m.threshold)).map Prod.fst).take
            m.num_matches).filterMap (fun k => m.current_procs.find?
              (fun p => decide (candidateKey sp p = k))) :=
        List.mem_filterMap.mpr ⟨k, hk, hq⟩
      exact List.ne_nil_of_mem this

/-- Claim C10, witness: a monitor with one record returns a non-empty
`some` from `get_all_procs`. -/
theorem some_results_nonempty_witness :
    get_all_procs demoMonitor = some [procA] ∧ ([procA] : List Process) ≠ [] :=
  ⟨by decide,
    (some_results_nonempty eqScore demoMonitor [] false [procA]).1 (by decide)⟩

end Fzk
